import Mathlib

/-!
Verification development for the deterministic financial core of the
AICashAdvisor repository: exact money arithmetic (`backend/money.py`),
transaction normalization (`backend/normalizer.py`), analytics
(`backend/analytics.py`) and the debt payoff simulator
(`backend/plans_debt.py`).

Modelling conventions:
* Python `Decimal` values are modelled as rationals (`ℚ`).  All monetary
  values the programs manipulate are quantized to two decimal places, on
  which `Decimal` arithmetic is exact; the only inexact `Decimal`
  operation used by the code is a division whose 28-significant-digit
  context precision is far below cent granularity for the magnitudes
  involved, so the rational model is faithful at the cent level.
  (`Decimal` distinguishes `-0.00` from `0.00` when a strictly negative
  value is quantized to zero; the rational model renders both as `0.00`.
  No claim below depends on that distinction.)
* `datetime` values are modelled as integer day numbers; the analytics
  code only compares dates and takes day differences.
* Dictionaries with insertion order (`dict` / `defaultdict`) are modelled
  as association lists whose keys are kept distinct, updated in place and
  appended on first touch.
-/

/-! ## `backend/money.py` -/

/-- Embeds `quantize_cents` (money.py): round to two decimal places with
`ROUND_HALF_UP`, i.e. ties away from zero. -/
def quantize_cents (x : ℚ) : ℚ :=
  if 0 ≤ x then ((⌊x * 100 + 1 / 2⌋ : ℤ) : ℚ) / 100
  else -(((⌊-x * 100 + 1 / 2⌋ : ℤ) : ℚ) / 100)

/-- A rational that is a whole number of cents (the values that `Decimal`
objects quantized to `0.01` take). -/
def IsCents (q : ℚ) : Prop := ∃ k : ℤ, q = (k : ℚ) / 100

theorem quantize_cents_isCents (x : ℚ) : IsCents (quantize_cents x) := by
  unfold quantize_cents
  split
  · exact ⟨_, rfl⟩
  · exact ⟨-⌊-x * 100 + 1 / 2⌋, by push_cast; ring⟩

theorem floor_intCast_add_half (k : ℤ) : ⌊(k : ℚ) + 1 / 2⌋ = k := by
  rw [add_comm, Int.floor_add_int]
  norm_num

theorem quantize_cents_eq_self {q : ℚ} (h : IsCents q) : quantize_cents q = q := by
  obtain ⟨k, rfl⟩ := h
  unfold quantize_cents
  have h1 : ((k : ℚ) / 100) * 100 = (k : ℚ) := by field_simp
  have h2 : -((k : ℚ) / 100) * 100 = ((-k : ℤ) : ℚ) := by push_cast; field_simp
  split
  · rw [h1, floor_intCast_add_half]
  · rw [h2, floor_intCast_add_half]
    push_cast
    ring

theorem quantize_cents_nonneg {x : ℚ} (h : 0 ≤ x) : 0 ≤ quantize_cents x := by
  unfold quantize_cents
  rw [if_pos h]
  have hf : (0 : ℤ) ≤ ⌊x * 100 + 1 / 2⌋ := by
    rw [Int.floor_nonneg]
    positivity
  positivity

theorem IsCents.add {a b : ℚ} (ha : IsCents a) (hb : IsCents b) : IsCents (a + b) := by
  obtain ⟨j, rfl⟩ := ha
  obtain ⟨k, rfl⟩ := hb
  exact ⟨j + k, by push_cast; ring⟩

theorem IsCents.neg {a : ℚ} (ha : IsCents a) : IsCents (-a) := by
  obtain ⟨j, rfl⟩ := ha
  exact ⟨-j, by push_cast; ring⟩

theorem IsCents.sub {a b : ℚ} (ha : IsCents a) (hb : IsCents b) : IsCents (a - b) := by
  rw [sub_eq_add_neg]
  exact ha.add hb.neg

theorem IsCents.min {a b : ℚ} (ha : IsCents a) (hb : IsCents b) : IsCents (min a b) := by
  rcases min_cases a b with ⟨h, _⟩ | ⟨h, _⟩ <;> rw [h] <;> assumption

theorem isCents_zero : IsCents 0 := ⟨0, by norm_num⟩

example : quantize_cents (125 / 1000 : ℚ) = 13 / 100 := by norm_num [quantize_cents]
example : quantize_cents (-(125 / 1000) : ℚ) = -(13 / 100) := by norm_num [quantize_cents]
example : quantize_cents (-1 / 1000 : ℚ) = 0 := by norm_num [quantize_cents]

/-! ## `backend/plans_debt.py`: definitions -/

/-- Embeds the `Debt` dataclass of plans_debt.py. -/
structure Debt where
  name : String
  balance : ℚ
  apr : ℚ
  min_payment : ℚ
deriving DecidableEq

/-- Embeds `_monthly_rate` of plans_debt.py. -/
def monthly_rate (apr : ℚ) : ℚ := apr / 12

/-- Python tuple comparison on pairs: lexicographic order. -/
def lexLE (a b : ℚ × ℚ) : Prop := a.1 < b.1 ∨ (a.1 = b.1 ∧ a.2 ≤ b.2)

instance : DecidableRel lexLE := fun a b => by
  unfold lexLE
  infer_instance

/-- Embeds `sort_key` of `payoff_plan`: avalanche sorts by `(-apr, balance)`,
anything else (i.e. snowball) by `(balance, -apr)`. -/
def sort_key (method : String) (d : Debt) : ℚ × ℚ :=
  if method = "avalanche" then (-d.apr, d.balance) else (d.balance, -d.apr)

/-- Order in which Python's `list.sort(key=sort_key)` arranges debts. -/
def debtLE (method : String) (d e : Debt) : Prop :=
  lexLE (sort_key method d) (sort_key method e)

instance (method : String) : DecidableRel (debtLE method) := fun d e => by
  unfold debtLE
  infer_instance

theorem lexLE_total (a b : ℚ × ℚ) : lexLE a b ∨ lexLE b a := by
  unfold lexLE
  rcases lt_trichotomy a.1 b.1 with h | h | h
  · exact Or.inl (Or.inl h)
  · rcases le_total a.2 b.2 with h2 | h2
    · exact Or.inl (Or.inr ⟨h, h2⟩)
    · exact Or.inr (Or.inr ⟨h.symm, h2⟩)
  · exact Or.inr (Or.inl h)

theorem lexLE_trans {a b c : ℚ × ℚ} (h1 : lexLE a b) (h2 : lexLE b c) : lexLE a c := by
  unfold lexLE at *
  rcases h1 with h1 | ⟨h1, h1'⟩ <;> rcases h2 with h2 | ⟨h2, h2'⟩
  · exact Or.inl (h1.trans h2)
  · exact Or.inl (h2 ▸ h1)
  · exact Or.inl (h1 ▸ h2)
  · exact Or.inr ⟨h1.trans h2, h1'.trans h2'⟩

instance (method : String) : IsTotal Debt (debtLE method) :=
  ⟨fun _ _ => lexLE_total _ _⟩

instance (method : String) : IsTrans Debt (debtLE method) :=
  ⟨fun _ _ _ => lexLE_trans⟩

/-- Embeds `debts.sort(key=sort_key)`: Python's stable sort by key. -/
def sortDebts (method : String) (l : List Debt) : List Debt :=
  l.insertionSort (debtLE method)

/-- Embeds the interest phase of the monthly loop, per debt:
skip non-positive balances, else add the quantized monthly interest and
re-quantize. -/
def accrueInterest (d : Debt) : Debt :=
  if d.balance ≤ 0 then d
  else { d with balance :=
    quantize_cents (d.balance + quantize_cents (d.balance * monthly_rate d.apr)) }

/-- Embeds the minimum-payment phase of the monthly loop, per debt. -/
def payMinimum (d : Debt) : Debt :=
  if d.balance ≤ 0 then d
  else { d with balance := quantize_cents (d.balance - min d.min_payment d.balance) }

/-- Embeds the extra-payment walk of the monthly loop: pays debts in list
order while the remaining extra is positive, skipping paid-off debts;
returns the updated debts and the remaining extra. -/
def applyExtra (remaining : ℚ) : List Debt → List Debt × ℚ
  | [] => ([], remaining)
  | d :: rest =>
    if remaining ≤ 0 then (d :: rest, remaining)
    else if d.balance ≤ 0 then
      let p := applyExtra remaining rest
      (d :: p.1, p.2)
    else
      let pay := min remaining d.balance
      let p := applyExtra (quantize_cents (remaining - pay)) rest
      ({ d with balance := quantize_cents (d.balance - pay) } :: p.1, p.2)

/-- Renders an integer number of cents the way Python's `str` renders a
`Decimal` with two fractional digits. -/
def intCentsRepr (c : ℤ) : String :=
  (if c < 0 then "-" else "") ++ toString (c.natAbs / 100) ++ "." ++
    (if c.natAbs % 100 < 10 then "0" else "") ++ toString (c.natAbs % 100)

/-- Renders a two-decimal-place rational the way Python's `str` renders the
corresponding quantized `Decimal` (such as "-3.50", "0.00", "123.45"). -/
def decimalString2 (q : ℚ) : String :=
  intCentsRepr ⌊q * 100⌋

/-- One entry of a monthly snapshot: a debt's name and its balance as a
two-decimal string. -/
structure SnapEntry where
  name : String
  balance : String
deriving DecidableEq

/-- Embeds one element of `schedule` in `payoff_plan`. -/
structure Snapshot where
  month : ℕ
  debts : List SnapEntry
deriving DecidableEq

/-- Embeds the dictionary returned by `payoff_plan`. -/
structure PayoffResult where
  method : String
  months : ℕ
  schedule : List Snapshot
  done : Bool
deriving DecidableEq

/-- Embeds the `while` loop of `payoff_plan`; `fuel` is `600 - month`, so
the guard `month < 600` is exactly `fuel > 0`.  Returns the final month
counter, the schedule produced, and the final debt list. -/
def payoffLoop (method : String) (extra : ℚ) :
    ℕ → ℕ → List Debt → ℕ × List Snapshot × List Debt
  | 0, month, debts => (month, [], debts)
  | fuel + 1, month, debts =>
    if debts.any fun d => decide (0 < d.balance) then
      let sorted := sortDebts method debts
      let afterInterest := sorted.map accrueInterest
      let afterMin := afterInterest.map payMinimum
      let afterExtra := (applyExtra extra afterMin).1
      let snap : Snapshot :=
        ⟨month + 1, afterExtra.map fun d => ⟨d.name, decimalString2 d.balance⟩⟩
      let rest := payoffLoop method extra fuel (month + 1) afterExtra
      (rest.1, snap :: rest.2.1, rest.2.2)
    else (month, [], debts)

/-- Embeds the defensive copy made at the top of `payoff_plan`: balance and
minimum payment decimal-converted and quantized, apr decimal-converted. -/
def copyDebt (d : Debt) : Debt :=
  { name := d.name, balance := quantize_cents d.balance, apr := d.apr,
    min_payment := quantize_cents d.min_payment }

/-- Embeds `payoff_plan` of plans_debt.py. -/
def payoff_plan (debts : List Debt) (extra_payment : ℚ) (method : String) :
    PayoffResult :=
  let copied := debts.map copyDebt
  let r := payoffLoop method (quantize_cents extra_payment) 600 0 copied
  { method := method, months := r.1, schedule := r.2.1,
    done := r.2.2.all fun d => decide (d.balance ≤ 0) }

/-- The final debt states of the simulation run by `payoff_plan` (the local
list the Python function holds when the loop exits; not part of the
returned dictionary). -/
def payoffFinal (debts : List Debt) (extra_payment : ℚ) (method : String) :
    List Debt :=
  (payoffLoop method (quantize_cents extra_payment) 600 0 (debts.map copyDebt)).2.2

/-! ## Spec-side description of the monthly transition (claim C1) -/

/-- Priority order stated by the spec for the avalanche method: APR
descending, balance ascending as tie-break. -/
def avalancheLE (d e : Debt) : Prop :=
  e.apr < d.apr ∨ (d.apr = e.apr ∧ d.balance ≤ e.balance)

/-- Priority order stated by the spec for the snowball method: balance
ascending, APR descending as tie-break. -/
def snowballLE (d e : Debt) : Prop :=
  d.balance < e.balance ∨ (d.balance = e.balance ∧ e.apr ≤ d.apr)

instance : DecidableRel avalancheLE := fun d e => by
  unfold avalancheLE
  infer_instance

instance : DecidableRel snowballLE := fun d e => by
  unfold snowballLE
  infer_instance

theorem avalancheLE_iff (d e : Debt) : avalancheLE d e ↔ debtLE "avalanche" d e := by
  simp [avalancheLE, debtLE, sort_key, lexLE, neg_lt_neg_iff, neg_inj, eq_comm]

theorem snowballLE_iff (method : String) (hm : ¬ method = "avalanche") (d e : Debt) :
    snowballLE d e ↔ debtLE method d e := by
  simp [snowballLE, debtLE, sort_key, lexLE, hm, neg_le_neg_iff]

instance : IsTotal Debt avalancheLE :=
  ⟨fun d e => by
    rw [avalancheLE_iff, avalancheLE_iff]
    exact lexLE_total _ _⟩

instance : IsTrans Debt avalancheLE :=
  ⟨fun d e f h1 h2 => by
    rw [avalancheLE_iff] at *
    exact lexLE_trans h1 h2⟩

instance : IsTotal Debt snowballLE :=
  ⟨fun d e => by
    rw [snowballLE_iff "snowball" (by simp), snowballLE_iff "snowball" (by simp)]
    exact lexLE_total _ _⟩

instance : IsTrans Debt snowballLE :=
  ⟨fun d e f h1 h2 => by
    rw [snowballLE_iff "snowball" (by simp)] at *
    exact lexLE_trans h1 h2⟩

/-- Sorting as the spec words it: a stable sort by the method's priority
order. -/
def sortDebtsSpec (method : String) (l : List Debt) : List Debt :=
  if method = "avalanche" then l.insertionSort avalancheLE
  else l.insertionSort snowballLE

/-- Interest accrual as the spec words it: for every debt with balance > 0,
add `quantizeCents(balance * apr / 12)` to its balance. -/
def accrueSpec (d : Debt) : Debt :=
  if 0 < d.balance then
    { d with balance := d.balance + quantize_cents (d.balance * d.apr / 12) }
  else d

/-- Minimum payments as the spec words it: for every debt with balance > 0,
subtract `min(min_payment, balance)` from its balance. -/
def payMinSpec (d : Debt) : Debt :=
  if 0 < d.balance then
    { d with balance := d.balance - min d.min_payment d.balance }
  else d

/-- The extra-payment walk as the spec words it: pay each debt with
balance > 0 the amount `min(remainingExtra, balance)`, decrement
`remainingExtra` by the same amount, stop when no extra remains or all
debts are visited. -/
def applyExtraSpec (remaining : ℚ) : List Debt → List Debt × ℚ
  | [] => ([], remaining)
  | d :: rest =>
    if remaining ≤ 0 then (d :: rest, remaining)
    else if 0 < d.balance then
      let pay := min remaining d.balance
      let p := applyExtraSpec (remaining - pay) rest
      ({ d with balance := d.balance - pay } :: p.1, p.2)
    else
      let p := applyExtraSpec remaining rest
      (d :: p.1, p.2)

/-- The per-month loop assembled from the spec-side phases, in the order
the spec states: re-sort, accrue interest, pay minimums, apply extra,
snapshot. -/
def payoffLoopSpec (method : String) (extra : ℚ) :
    ℕ → ℕ → List Debt → ℕ × List Snapshot × List Debt
  | 0, month, debts => (month, [], debts)
  | fuel + 1, month, debts =>
    if debts.any fun d => decide (0 < d.balance) then
      let sorted := sortDebtsSpec method debts
      let s1 := sorted.map accrueSpec
      let s2 := s1.map payMinSpec
      let s3 := (applyExtraSpec extra s2).1
      let snap : Snapshot :=
        ⟨month + 1, s3.map fun d => ⟨d.name, decimalString2 d.balance⟩⟩
      let rest := payoffLoopSpec method extra fuel (month + 1) s3
      (rest.1, snap :: rest.2.1, rest.2.2)
    else (month, [], debts)

/-- The whole simulation assembled from the spec-side monthly transition. -/
def payoffPlanSpec (debts : List Debt) (extra_payment : ℚ) (method : String) :
    PayoffResult :=
  let copied := debts.map copyDebt
  let r := payoffLoopSpec method (quantize_cents extra_payment) 600 0 copied
  { method := method, months := r.1, schedule := r.2.1,
    done := r.2.2.all fun d => decide (d.balance ≤ 0) }

/-! ## Code-side / spec-side equivalence lemmas for the simulator -/

theorem orderedInsert_congr {α : Type} {r s : α → α → Prop}
    [DecidableRel r] [DecidableRel s] (h : ∀ a b, r a b ↔ s a b) (a : α) :
    ∀ l : List α, l.orderedInsert r a = l.orderedInsert s a
  | [] => rfl
  | b :: l => by
    simp only [List.orderedInsert]
    by_cases hab : r a b
    · rw [if_pos hab, if_pos ((h a b).mp hab)]
    · rw [if_neg hab, if_neg (fun hs => hab ((h a b).mpr hs)),
        orderedInsert_congr h a l]

theorem insertionSort_congr {α : Type} {r s : α → α → Prop}
    [DecidableRel r] [DecidableRel s] (h : ∀ a b, r a b ↔ s a b) :
    ∀ l : List α, l.insertionSort r = l.insertionSort s
  | [] => rfl
  | a :: l => by
    simp only [List.insertionSort]
    rw [insertionSort_congr h l, orderedInsert_congr h a]

theorem sortDebts_eq_spec (method : String) (l : List Debt) :
    sortDebts method l = sortDebtsSpec method l := by
  unfold sortDebts sortDebtsSpec
  by_cases hm : method = "avalanche"
  · rw [if_pos hm, hm]
    exact insertionSort_congr (fun a b => (avalancheLE_iff a b).symm) l
  · rw [if_neg hm]
    exact insertionSort_congr (fun a b => (snowballLE_iff method hm a b).symm) l

theorem sortDebts_perm (method : String) (l : List Debt) :
    (sortDebts method l).Perm l :=
  List.perm_insertionSort _ l

theorem accrueInterest_eq_spec {d : Debt} (hb : IsCents d.balance) :
    accrueInterest d = accrueSpec d := by
  unfold accrueInterest accrueSpec monthly_rate
  rcases le_or_lt d.balance 0 with h | h
  · rw [if_pos h, if_neg (not_lt.mpr h)]
  · rw [if_neg (not_le.mpr h), if_pos h]
    have harg : d.balance * (d.apr / 12) = d.balance * d.apr / 12 := by ring
    rw [harg, quantize_cents_eq_self (hb.add (quantize_cents_isCents _))]

theorem payMinimum_eq_spec {d : Debt} (hb : IsCents d.balance)
    (hm : IsCents d.min_payment) : payMinimum d = payMinSpec d := by
  unfold payMinimum payMinSpec
  rcases le_or_lt d.balance 0 with h | h
  · rw [if_pos h, if_neg (not_lt.mpr h)]
  · rw [if_neg (not_le.mpr h), if_pos h,
      quantize_cents_eq_self (hb.sub (hm.min hb))]

theorem applyExtra_eq_spec {remaining : ℚ} (hr : IsCents remaining) :
    ∀ {l : List Debt}, (∀ d ∈ l, IsCents d.balance) →
      applyExtra remaining l = applyExtraSpec remaining l
  | [], _ => rfl
  | d :: rest, hl => by
    have hd : IsCents d.balance := hl d (List.mem_cons_self d rest)
    have hrest : ∀ e ∈ rest, IsCents e.balance :=
      fun e he => hl e (List.mem_cons_of_mem d he)
    unfold applyExtra applyExtraSpec
    rcases le_or_lt remaining 0 with h | h
    · rw [if_pos h, if_pos h]
    · rw [if_neg (not_le.mpr h), if_neg (not_le.mpr h)]
      rcases le_or_lt d.balance 0 with hb | hb
      · rw [if_pos hb, if_neg (not_lt.mpr hb)]
        rw [applyExtra_eq_spec hr hrest]
      · rw [if_neg (not_le.mpr hb), if_pos hb]
        have hpay : IsCents (min remaining d.balance) := hr.min hd
        dsimp only
        rw [quantize_cents_eq_self (hd.sub hpay),
          quantize_cents_eq_self (hr.sub hpay),
          applyExtra_eq_spec (hr.sub hpay) hrest]

/-- The cents invariant carried through the simulation: all balances and
minimum payments are whole numbers of cents. -/
def DebtsCents (l : List Debt) : Prop :=
  ∀ d ∈ l, IsCents d.balance ∧ IsCents d.min_payment

theorem DebtsCents.cents_of_perm {l l' : List Debt} (h : l.Perm l') (hl : DebtsCents l) :
    DebtsCents l' := fun d hd => hl d (h.symm.subset hd)

theorem accrueInterest_fields (d : Debt) :
    (accrueInterest d).min_payment = d.min_payment ∧
      (accrueInterest d).apr = d.apr ∧ (accrueInterest d).name = d.name := by
  unfold accrueInterest
  split <;> exact ⟨rfl, rfl, rfl⟩

theorem accrueInterest_balance_isCents {d : Debt} (hb : IsCents d.balance) :
    IsCents (accrueInterest d).balance := by
  unfold accrueInterest
  split
  · exact hb
  · exact quantize_cents_isCents _

theorem payMinimum_fields (d : Debt) :
    (payMinimum d).min_payment = d.min_payment ∧
      (payMinimum d).apr = d.apr ∧ (payMinimum d).name = d.name := by
  unfold payMinimum
  split <;> exact ⟨rfl, rfl, rfl⟩

theorem payMinimum_balance_isCents {d : Debt} (hb : IsCents d.balance) :
    IsCents (payMinimum d).balance := by
  unfold payMinimum
  split
  · exact hb
  · exact quantize_cents_isCents _

theorem DebtsCents.cents_map_accrue {l : List Debt} (hl : DebtsCents l) :
    DebtsCents (l.map accrueInterest) := by
  intro d hd
  rcases List.mem_map.mp hd with ⟨e, he, rfl⟩
  exact ⟨accrueInterest_balance_isCents (hl e he).1,
    (accrueInterest_fields e).1 ▸ (hl e he).2⟩

theorem DebtsCents.cents_map_payMin {l : List Debt} (hl : DebtsCents l) :
    DebtsCents (l.map payMinimum) := by
  intro d hd
  rcases List.mem_map.mp hd with ⟨e, he, rfl⟩
  exact ⟨payMinimum_balance_isCents (hl e he).1,
    (payMinimum_fields e).1 ▸ (hl e he).2⟩

theorem applyExtra_cents {remaining : ℚ} (hr : IsCents remaining) :
    ∀ {l : List Debt}, DebtsCents l → DebtsCents (applyExtra remaining l).1
  | [], _ => by
    unfold applyExtra
    exact fun d hd => absurd hd (List.not_mem_nil d)
  | d :: rest, hl => by
    have hd := hl d (List.mem_cons_self d rest)
    have hrest : DebtsCents rest := fun e he => hl e (List.mem_cons_of_mem d he)
    unfold applyExtra
    rcases le_or_lt remaining 0 with h | h
    · rw [if_pos h]
      exact hl
    · rw [if_neg (not_le.mpr h)]
      rcases le_or_lt d.balance 0 with hb | hb
      · rw [if_pos hb]
        intro e he
        rcases List.mem_cons.mp he with rfl | he'
        · exact hd
        · exact applyExtra_cents hr hrest e he'
      · rw [if_neg (not_le.mpr hb)]
        intro e he
        rcases List.mem_cons.mp he with rfl | he'
        · exact ⟨quantize_cents_isCents _, hd.2⟩
        · exact applyExtra_cents (quantize_cents_isCents _) hrest e he'

theorem payoffLoop_eq_spec (method : String) {extra : ℚ} (he : IsCents extra) :
    ∀ (fuel month : ℕ) {debts : List Debt}, DebtsCents debts →
      payoffLoop method extra fuel month debts =
        payoffLoopSpec method extra fuel month debts
  | 0, month, debts, _ => rfl
  | fuel + 1, month, debts, hd => by
    unfold payoffLoop payoffLoopSpec
    by_cases hg : debts.any fun d => decide (0 < d.balance)
    · rw [if_pos hg, if_pos hg]
      dsimp only
      have c0 : DebtsCents (sortDebts method debts) :=
        hd.cents_of_perm (sortDebts_perm method debts).symm
      have e1 : (sortDebts method debts).map accrueInterest =
          (sortDebtsSpec method debts).map accrueSpec := by
        rw [← sortDebts_eq_spec]
        exact List.map_congr_left fun d hdm => accrueInterest_eq_spec (c0 d hdm).1
      have c1 : DebtsCents ((sortDebts method debts).map accrueInterest) :=
        c0.cents_map_accrue
      have e2 : ((sortDebts method debts).map accrueInterest).map payMinimum =
          ((sortDebtsSpec method debts).map accrueSpec).map payMinSpec := by
        rw [← e1]
        exact List.map_congr_left fun d hdm =>
          payMinimum_eq_spec (c1 d hdm).1 (c1 d hdm).2
      have c2 : DebtsCents (((sortDebts method debts).map accrueInterest).map
          payMinimum) := c1.cents_map_payMin
      have e3 : applyExtra extra (((sortDebts method debts).map
            accrueInterest).map payMinimum) =
          applyExtraSpec extra (((sortDebtsSpec method debts).map
            accrueSpec).map payMinSpec) := by
        rw [← e2]
        exact applyExtra_eq_spec he fun d hdm => (c2 d hdm).1
      have c3 : DebtsCents (applyExtra extra (((sortDebts method debts).map
          accrueInterest).map payMinimum)).1 := applyExtra_cents he c2
      have hrec := payoffLoop_eq_spec method he fuel (month + 1) c3
      rw [← e3, ← hrec]
    · rw [if_neg hg, if_neg hg]

theorem copyDebt_cents (debts : List Debt) : DebtsCents (debts.map copyDebt) := by
  intro d hd
  rcases List.mem_map.mp hd with ⟨e, _, rfl⟩
  exact ⟨quantize_cents_isCents _, quantize_cents_isCents _⟩

theorem payoff_plan_eq_spec (debts : List Debt) (extra : ℚ) (method : String) :
    payoff_plan debts extra method = payoffPlanSpec debts extra method := by
  unfold payoff_plan payoffPlanSpec
  dsimp only
  rw [payoffLoop_eq_spec method (quantize_cents_isCents extra) 600 0
    (copyDebt_cents debts)]

/-! ## Claim C1 -/

theorem payoffLoop_months_le (method : String) (extra : ℚ) :
    ∀ (fuel month : ℕ) (debts : List Debt),
      (payoffLoop method extra fuel month debts).1 ≤ month + fuel
  | 0, month, debts => le_refl _
  | fuel + 1, month, debts => by
    unfold payoffLoop
    by_cases hg : debts.any fun d => decide (0 < d.balance)
    · rw [if_pos hg]
      dsimp only
      calc (payoffLoop method extra fuel (month + 1) _).1
          ≤ (month + 1) + fuel := payoffLoop_months_le method extra fuel (month + 1) _
        _ = month + (fuel + 1) := by omega
    · rw [if_neg hg]
      dsimp only
      omega

theorem payoffLoop_months_eq_len (method : String) (extra : ℚ) :
    ∀ (fuel month : ℕ) (debts : List Debt),
      (payoffLoop method extra fuel month debts).1 =
        month + (payoffLoop method extra fuel month debts).2.1.length
  | 0, _, _ => by simp [payoffLoop]
  | fuel + 1, month, debts => by
    unfold payoffLoop
    by_cases hg : debts.any fun d => decide (0 < d.balance)
    · rw [if_pos hg]
      dsimp only
      rw [payoffLoop_months_eq_len method extra fuel (month + 1)]
      simp only [List.length_cons]
      omega
    · rw [if_neg hg]
      simp

theorem payoffLoop_early_exit (method : String) (extra : ℚ) :
    ∀ (fuel month : ℕ) (debts : List Debt),
      (payoffLoop method extra fuel month debts).1 < month + fuel →
        ∀ d ∈ (payoffLoop method extra fuel month debts).2.2, d.balance ≤ 0
  | 0, month, debts => by
    intro h
    simp [payoffLoop] at h
  | fuel + 1, month, debts => by
    unfold payoffLoop
    by_cases hg : debts.any fun d => decide (0 < d.balance)
    · rw [if_pos hg]
      dsimp only
      intro h
      exact payoffLoop_early_exit method extra fuel (month + 1) _ (by omega)
    · rw [if_neg hg]
      dsimp only
      have hall : ∀ e ∈ debts, ¬ (0 < e.balance) := by
        intro e he hlt
        exact hg (List.any_eq_true.mpr ⟨e, he, by simpa using hlt⟩)
      intro _ d hd
      exact not_lt.mp (hall d hd)

theorem runaway_invariant :
    ∀ (fuel month : ℕ) (b : ℚ), IsCents b → 100 ≤ b →
      (payoffLoop "avalanche" 0 fuel month [⟨"runaway", b, 12, 1⟩]).1 =
          month + fuel
        ∧ ∃ b' : ℚ, IsCents b' ∧ 100 ≤ b' ∧
            (payoffLoop "avalanche" 0 fuel month [⟨"runaway", b, 12, 1⟩]).2.2 =
              [⟨"runaway", b', 12, 1⟩]
  | 0, month, b, hc, hb => ⟨rfl, b, hc, hb, rfl⟩
  | fuel + 1, month, b, hc, hb => by
    have hpos : (0 : ℚ) < b := lt_of_lt_of_le (by norm_num) hb
    have hone : IsCents (1 : ℚ) := ⟨100, by norm_num⟩
    have hguard : (([⟨"runaway", b, 12, 1⟩] : List Debt).any
        fun d => decide (0 < d.balance)) = true := by
      simp [hpos]
    have hacc : accrueInterest ⟨"runaway", b, 12, 1⟩ = ⟨"runaway", b + b, 12, 1⟩ := by
      unfold accrueInterest monthly_rate
      rw [if_neg (not_le.mpr hpos)]
      have h1 : b * ((12 : ℚ) / 12) = b := by norm_num
      simp only [h1, quantize_cents_eq_self hc, quantize_cents_eq_self (hc.add hc)]
    have hpos2 : (0 : ℚ) < b + b := by linarith
    have hmin : payMinimum ⟨"runaway", b + b, 12, 1⟩ =
        ⟨"runaway", b + b - 1, 12, 1⟩ := by
      unfold payMinimum
      rw [if_neg (not_le.mpr hpos2)]
      have hminv : min (1 : ℚ) (b + b) = 1 := min_eq_left (by linarith)
      simp only [hminv, quantize_cents_eq_self ((hc.add hc).sub hone)]
    have hext : applyExtra 0 [⟨"runaway", b + b - 1, 12, 1⟩] =
        ([⟨"runaway", b + b - 1, 12, 1⟩], 0) := by
      unfold applyExtra
      rw [if_pos le_rfl]
    have hstep : payoffLoop "avalanche" 0 (fuel + 1) month [⟨"runaway", b, 12, 1⟩] =
        ((payoffLoop "avalanche" 0 fuel (month + 1) [⟨"runaway", b + b - 1, 12, 1⟩]).1,
          ⟨month + 1, [⟨"runaway", decimalString2 (b + b - 1)⟩]⟩ ::
            (payoffLoop "avalanche" 0 fuel (month + 1)
              [⟨"runaway", b + b - 1, 12, 1⟩]).2.1,
          (payoffLoop "avalanche" 0 fuel (month + 1)
            [⟨"runaway", b + b - 1, 12, 1⟩]).2.2) := by
      conv_lhs => unfold payoffLoop
      rw [if_pos hguard]
      have hsort : sortDebts "avalanche" [⟨"runaway", b, 12, 1⟩] =
          [⟨"runaway", b, 12, 1⟩] := rfl
      simp only [hsort, List.map_cons, List.map_nil, hacc, hmin, hext]
    have hb' : IsCents (b + b - 1) := (hc.add hc).sub hone
    have hge : (100 : ℚ) ≤ b + b - 1 := by linarith
    obtain ⟨ih1, b'', hc'', hge'', ih2⟩ :=
      runaway_invariant fuel (month + 1) (b + b - 1) hb' hge
    refine ⟨?_, b'', hc'', hge'', ?_⟩
    · rw [hstep]
      dsimp only
      rw [ih1]
      omega
    · rw [hstep]
      exact ih2

/-- The invariant carried through a simulated month: all balances and all
APRs are non-negative. -/
def DebtsNonneg (l : List Debt) : Prop := ∀ d ∈ l, 0 ≤ d.balance ∧ 0 ≤ d.apr

theorem DebtsNonneg.nonneg_of_perm {l l' : List Debt} (h : l.Perm l')
    (hl : DebtsNonneg l) : DebtsNonneg l' := fun d hd => hl d (h.symm.subset hd)

theorem accrueInterest_nonneg {d : Debt} (hb : 0 ≤ d.balance) (ha : 0 ≤ d.apr) :
    0 ≤ (accrueInterest d).balance := by
  unfold accrueInterest monthly_rate
  split
  · exact hb
  · refine quantize_cents_nonneg (add_nonneg hb (quantize_cents_nonneg ?_))
    positivity

theorem payMinimum_nonneg {d : Debt} (hb : 0 ≤ d.balance) :
    0 ≤ (payMinimum d).balance := by
  unfold payMinimum
  split
  · exact hb
  · exact quantize_cents_nonneg (by simp)

theorem DebtsNonneg.nonneg_map_accrue {l : List Debt} (hl : DebtsNonneg l) :
    DebtsNonneg (l.map accrueInterest) := by
  intro d hd
  rcases List.mem_map.mp hd with ⟨e, he, rfl⟩
  exact ⟨accrueInterest_nonneg (hl e he).1 (hl e he).2,
    (accrueInterest_fields e).2.1 ▸ (hl e he).2⟩

theorem DebtsNonneg.nonneg_map_payMin {l : List Debt} (hl : DebtsNonneg l) :
    DebtsNonneg (l.map payMinimum) := by
  intro d hd
  rcases List.mem_map.mp hd with ⟨e, he, rfl⟩
  exact ⟨payMinimum_nonneg (hl e he).1, (payMinimum_fields e).2.1 ▸ (hl e he).2⟩

theorem applyExtra_balance_nonneg (remaining : ℚ) :
    ∀ l : List Debt, (∀ d ∈ l, 0 ≤ d.balance) →
      ∀ d ∈ (applyExtra remaining l).1, 0 ≤ d.balance
  | [], _ => by
    unfold applyExtra
    exact fun d hd => absurd hd (List.not_mem_nil d)
  | d :: rest, hl => by
    have hd := hl d (List.mem_cons_self d rest)
    have hrest : ∀ e ∈ rest, 0 ≤ e.balance :=
      fun e he => hl e (List.mem_cons_of_mem d he)
    unfold applyExtra
    rcases le_or_lt remaining 0 with h | h
    · rw [if_pos h]
      exact hl
    · rw [if_neg (not_le.mpr h)]
      rcases le_or_lt d.balance 0 with hb | hb
      · rw [if_pos hb]
        intro e he
        rcases List.mem_cons.mp he with rfl | he'
        · exact hd
        · exact applyExtra_balance_nonneg remaining rest hrest e he'
      · rw [if_neg (not_le.mpr hb)]
        intro e he
        rcases List.mem_cons.mp he with rfl | he'
        · exact quantize_cents_nonneg (by simp)
        · exact applyExtra_balance_nonneg _ rest hrest e he'

theorem applyExtra_nonneg {remaining : ℚ} :
    ∀ {l : List Debt}, DebtsNonneg l → DebtsNonneg (applyExtra remaining l).1
  | [], _ => by
    unfold applyExtra
    exact fun d hd => absurd hd (List.not_mem_nil d)
  | d :: rest, hl => by
    have hd := hl d (List.mem_cons_self d rest)
    have hrest : DebtsNonneg rest := fun e he => hl e (List.mem_cons_of_mem d he)
    unfold applyExtra
    rcases le_or_lt remaining 0 with h | h
    · rw [if_pos h]
      exact hl
    · rw [if_neg (not_le.mpr h)]
      rcases le_or_lt d.balance 0 with hb | hb
      · rw [if_pos hb]
        intro e he
        rcases List.mem_cons.mp he with rfl | he'
        · exact hd
        · exact applyExtra_nonneg hrest e he'
      · rw [if_neg (not_le.mpr hb)]
        intro e he
        rcases List.mem_cons.mp he with rfl | he'
        · exact ⟨quantize_cents_nonneg (by simp), hd.2⟩
        · exact applyExtra_nonneg hrest e he'

theorem payoffLoop_nonneg (method : String) (extra : ℚ) :
    ∀ (fuel month : ℕ) (debts : List Debt), DebtsNonneg debts →
      DebtsNonneg (payoffLoop method extra fuel month debts).2.2
      ∧ ∀ snap ∈ (payoffLoop method extra fuel month debts).2.1,
          ∀ e ∈ snap.debts, ∃ q : ℚ, 0 ≤ q ∧ e.balance = decimalString2 q
  | 0, month, debts, hd => ⟨hd, by simp [payoffLoop]⟩
  | fuel + 1, month, debts, hd => by
    unfold payoffLoop
    by_cases hg : debts.any fun d => decide (0 < d.balance)
    · rw [if_pos hg]
      dsimp only
      have c0 : DebtsNonneg (sortDebts method debts) :=
        hd.nonneg_of_perm (sortDebts_perm method debts).symm
      have c3 : DebtsNonneg (applyExtra extra (((sortDebts method debts).map
          accrueInterest).map payMinimum)).1 :=
        applyExtra_nonneg c0.nonneg_map_accrue.nonneg_map_payMin
      obtain ⟨ih1, ih2⟩ := payoffLoop_nonneg method extra fuel (month + 1) _ c3
      refine ⟨ih1, ?_⟩
      intro snap hsnap
      rcases List.mem_cons.mp hsnap with rfl | hsnap'
      · intro e he
        rcases List.mem_map.mp he with ⟨d, hdm, rfl⟩
        exact ⟨d.balance, (c3 d hdm).1, rfl⟩
      · exact ih2 snap hsnap'
    · rw [if_neg hg]
      exact ⟨hd, by simp⟩

/-- C10: if every input debt has non-negative balance, APR and minimum
payment, then every per-step balance update of the simulation preserves
non-negativity (interest accrual, minimum payment — which is capped at the
current balance — and the extra-payment walk — likewise capped), the final
balances are non-negative, and every balance recorded in any schedule
snapshot is the rendering of a non-negative amount. -/
theorem payoff_plan_balances_nonneg :
    ∀ (debts : List Debt) (extra : ℚ) (method : String),
      (∀ d ∈ debts, 0 ≤ d.balance ∧ 0 ≤ d.apr ∧ 0 ≤ d.min_payment) →
      (∀ d : Debt, 0 ≤ d.balance → 0 ≤ d.apr → 0 ≤ (accrueInterest d).balance)
      ∧ (∀ d : Debt, 0 ≤ d.balance → 0 ≤ (payMinimum d).balance)
      ∧ (∀ (rem : ℚ) (l : List Debt), (∀ d ∈ l, 0 ≤ d.balance) →
          ∀ d ∈ (applyExtra rem l).1, 0 ≤ d.balance)
      ∧ (∀ d ∈ payoffFinal debts extra method, 0 ≤ d.balance)
      ∧ (∀ snap ∈ (payoff_plan debts extra method).schedule,
          ∀ e ∈ snap.debts, ∃ q : ℚ, 0 ≤ q ∧ e.balance = decimalString2 q) := by
  intro debts extra method hin
  have hcopied : DebtsNonneg (debts.map copyDebt) := by
    intro d hdm
    rcases List.mem_map.mp hdm with ⟨e, he, rfl⟩
    exact ⟨quantize_cents_nonneg (hin e he).1, (hin e he).2.1⟩
  obtain ⟨h1, h2⟩ :=
    payoffLoop_nonneg method (quantize_cents extra) 600 0 (debts.map copyDebt)
      hcopied
  exact ⟨fun d hb ha => accrueInterest_nonneg hb ha,
    fun d hb => payMinimum_nonneg hb,
    fun rem l hl => applyExtra_balance_nonneg rem l hl,
    fun d hdm => (h1 d hdm).1, h2⟩

/-- Witness for C10 at a concrete input: one debt with balance 50.00,
APR 0.10 and minimum payment 5.00, no extra payment, avalanche method. -/
theorem payoff_plan_balances_nonneg_witness :
    (∀ d ∈ ([⟨"card", 50, 1 / 10, 5⟩] : List Debt),
        0 ≤ d.balance ∧ 0 ≤ d.apr ∧ 0 ≤ d.min_payment)
    ∧ ∀ d ∈ payoffFinal [⟨"card", 50, 1 / 10, 5⟩] 0 "avalanche", 0 ≤ d.balance := by
  have hin : ∀ d ∈ ([⟨"card", 50, 1 / 10, 5⟩] : List Debt),
      0 ≤ d.balance ∧ 0 ≤ d.apr ∧ 0 ≤ d.min_payment := by
    intro d hdm
    rw [List.mem_singleton] at hdm
    subst hdm
    refine ⟨by norm_num, by norm_num, by norm_num⟩
  exact ⟨hin,
    (payoff_plan_balances_nonneg [⟨"card", 50, 1 / 10, 5⟩] 0 "avalanche"
      hin).2.2.2.1⟩

/-! ## Claim C8: the caller's debts are never mutated -/

/-- Placeholder record used as the out-of-range default of `List.getD`. -/
def defaultDebt : Debt := ⟨"", 0, 0, 0⟩

/-- Heap model of a call to `payoff_plan`: the caller's debt objects live
in a store and are passed by reference; the simulator allocates fresh copy
objects (appended region) and performs all its mutations on those, so the
post-call store is the old store followed by the copies in their final
states. -/
def callPayoffOnStore (store : List Debt) (refs : List ℕ) (extra : ℚ)
    (method : String) : List Debt × PayoffResult :=
  let caller := refs.map fun i => store.getD i defaultDebt
  (store ++ payoffFinal caller extra method, payoff_plan caller extra method)

theorem copyDebt_idem (d : Debt) : copyDebt (copyDebt d) = copyDebt d := by
  unfold copyDebt
  simp [quantize_cents_eq_self (quantize_cents_isCents _)]

/-- C8: after a call to `payoff_plan` the caller-held region of the store
is unchanged — in particular every original debt's balance equals its
pre-call value — the result is exactly that of the pure simulation, the
simulation only ever reads the defensive copies (quantized balance and
minimum payment, decimal-converted apr), and re-running on the copies
changes nothing. -/
theorem payoff_plan_frame :
    ∀ (store : List Debt) (refs : List ℕ) (extra : ℚ) (method : String),
      (callPayoffOnStore store refs extra method).1.take store.length = store
      ∧ (∀ i : ℕ, i < store.length →
          ((callPayoffOnStore store refs extra method).1.getD i
              defaultDebt).balance = (store.getD i defaultDebt).balance)
      ∧ (callPayoffOnStore store refs extra method).2 =
          payoff_plan (refs.map fun i => store.getD i defaultDebt) extra method
      ∧ (∀ d : Debt, copyDebt d =
          ⟨d.name, quantize_cents d.balance, d.apr, quantize_cents d.min_payment⟩)
      ∧ (∀ (debts : List Debt) (e : ℚ) (m : String),
          payoff_plan (debts.map copyDebt) e m = payoff_plan debts e m) := by
  intro store refs extra method
  refine ⟨?_, ?_, rfl, fun d => rfl, ?_⟩
  · exact List.take_left store _
  · intro i hi
    unfold callPayoffOnStore
    dsimp only
    rw [List.getD_eq_getElem?_getD, List.getElem?_append_left hi,
      ← List.getD_eq_getElem?_getD]
  · intro debts e m
    unfold payoff_plan
    have hmap : (debts.map copyDebt).map copyDebt = debts.map copyDebt := by
      rw [List.map_map]
      exact List.map_congr_left fun d _ => copyDebt_idem d
    rw [hmap]

/-- Witness for C8 at a concrete input: a one-debt store referenced once. -/
theorem payoff_plan_frame_witness :
    (callPayoffOnStore [⟨"card", 10, 1, 2⟩] [0] 5 "snowball").1.take 1 =
        [⟨"card", 10, 1, 2⟩]
    ∧ (0 : ℕ) < 1
    ∧ ((callPayoffOnStore [⟨"card", 10, 1, 2⟩] [0] 5 "snowball").1.getD 0
          defaultDebt).balance =
        (([⟨"card", 10, 1, 2⟩] : List Debt).getD 0 defaultDebt).balance :=
  ⟨(payoff_plan_frame [⟨"card", 10, 1, 2⟩] [0] 5 "snowball").1,
    Nat.zero_lt_one,
    (payoff_plan_frame [⟨"card", 10, 1, 2⟩] [0] 5 "snowball").2.1 0
      Nat.zero_lt_one⟩

/-! ## `backend/analytics.py`: definitions -/

/-- Modelled from the spec: the canonical transaction record the analytics
functions consume (the ORM model module `db/models.py` is not part of the
source tree; fields follow §3 of the spec and the pydantic `Transaction`
schema: a date, an optional merchant, an exact-decimal signed amount, an
optional category).  Dates are day numbers; the analytics code only
compares dates and takes day differences. -/
structure Txn where
  date : ℤ
  merchant : Option String
  amount : ℚ
  category : Option String
deriving DecidableEq

/-- Embeds the Python expression `txn.category or "Uncategorized"`: both an
absent category and an empty-string category (both falsy) are replaced. -/
def catKey (t : Txn) : String :=
  match t.category with
  | none => "Uncategorized"
  | some s => if s = "" then "Uncategorized" else s

/-- Embeds the Python guard `if txn.merchant:` — the merchant when truthy
(present and non-empty), otherwise nothing. -/
def merchOf (t : Txn) : Option String :=
  match t.merchant with
  | none => none
  | some s => if s = "" then none else some s

/-- One step of an insertion-ordered dictionary update, as `defaultdict`
behaves: if the selected key exists, update its entry with `upd`;
otherwise append a new entry holding `upd dflt t`. -/
def dictStep {β : Type} (upd : β → Txn → β) (dflt : β) (key : Txn → Option String)
    (l : List (String × β)) (t : Txn) : List (String × β) :=
  match key t with
  | none => l
  | some k =>
    if l.any fun p => decide (p.1 = k) then
      l.map fun p => if p.1 = k then (p.1, upd p.2 t) else p
    else l ++ [(k, upd dflt t)]

/-- An insertion-ordered dictionary built over a transaction list. -/
def dictFold {β : Type} (upd : β → Txn → β) (dflt : β) (key : Txn → Option String)
    (txns : List Txn) : List (String × β) :=
  txns.foldl (dictStep upd dflt key) []

/-- One iteration of the loop in `summarize_transactions`: update the
income or expense accumulator according to the amount's sign, and the
category totals dictionary. -/
def summarizeStep (st : ℚ × ℚ × List (String × ℚ)) (t : Txn) :
    ℚ × ℚ × List (String × ℚ) :=
  (if 0 < t.amount then st.1 + t.amount else st.1,
    if 0 < t.amount then st.2.1 else st.2.1 + |t.amount|,
    dictStep (fun v s => v + |s.amount|) 0 (fun s => some (catKey s)) st.2.2 t)

/-- Embeds the dictionary returned by `summarize_transactions`. -/
structure Summary where
  total_income : String
  total_expense : String
  net_cash_flow : String
  category_totals : List (String × String)
deriving DecidableEq

/-- Embeds `summarize_transactions` of analytics.py. -/
def summarize_transactions (txns : List Txn) : Summary :=
  let st := txns.foldl summarizeStep (0, 0, [])
  { total_income := decimalString2 (quantize_cents st.1),
    total_expense := decimalString2 (quantize_cents st.2.1),
    net_cash_flow := decimalString2 (quantize_cents (st.1 - st.2.1)),
    category_totals :=
      st.2.2.map fun p => (p.1, decimalString2 (quantize_cents p.2)) }

/-- Sum of the positive amounts, as the spec words `totalIncome`. -/
def sumIncome (txns : List Txn) : ℚ :=
  ((txns.filter fun t => decide (0 < t.amount)).map fun t => t.amount).sum

/-- Sum of the absolute values of the non-positive amounts, as the spec
words `totalExpense`. -/
def sumExpense (txns : List Txn) : ℚ :=
  ((txns.filter fun t => decide (t.amount ≤ 0)).map fun t => |t.amount|).sum

/-- First-seen-order deduplication of a key list (insertion order of a
Python dict). -/
def firstSeen (ks : List String) : List String :=
  ks.foldl (fun acc k => if k ∈ acc then acc else acc ++ [k]) []

/-- The summary described by the spec, parametrized by the key that names
a transaction's category bucket. -/
def summarizeSpecWith (key : Txn → String) (txns : List Txn) : Summary :=
  { total_income := decimalString2 (quantize_cents (sumIncome txns)),
    total_expense := decimalString2 (quantize_cents (sumExpense txns)),
    net_cash_flow :=
      decimalString2 (quantize_cents (sumIncome txns - sumExpense txns)),
    category_totals := (firstSeen (txns.map key)).map fun k =>
      (k, decimalString2 (quantize_cents
        (((txns.filter fun t => decide (key t = k)).map fun t => |t.amount|).sum))) }

/-- Claim C5 read literally: "Uncategorized" is substituted exactly when
the category is absent (an empty-string category keeps its own bucket). -/
def summarizeSpec (txns : List Txn) : Summary :=
  summarizeSpecWith (fun t => t.category.getD "Uncategorized") txns

/-- Claim C5 amended: "Uncategorized" is substituted when the category is
absent or empty (Python falsiness). -/
def summarizeSpecAmended (txns : List Txn) : Summary :=
  summarizeSpecWith catKey txns

/-! ## Association-list dictionary lemmas -/

/-- Keys of an association list, in order. -/
def keysOf {β : Type} (l : List (String × β)) : List String := l.map Prod.fst

/-- Lookup with a default, matching Python dictionary access. -/
def lookupD {β : Type} (l : List (String × β)) (k : String) (d : β) : β :=
  ((l.find? fun p => decide (p.1 = k)).map Prod.snd).getD d

theorem any_key_iff {β : Type} (l : List (String × β)) (k : String) :
    (l.any fun p => decide (p.1 = k)) = true ↔ k ∈ keysOf l := by
  rw [List.any_eq_true]
  unfold keysOf
  rw [List.mem_map]
  constructor
  · rintro ⟨p, hp, hpk⟩
    exact ⟨p, hp, by simpa using hpk⟩
  · rintro ⟨p, hp, hpk⟩
    exact ⟨p, hp, by simpa using hpk⟩

theorem find?_key_isSome {β : Type} (l : List (String × β)) (k : String) :
    (l.find? fun p => decide (p.1 = k)).isSome ↔ k ∈ keysOf l := by
  rw [List.find?_isSome]
  unfold keysOf
  rw [List.mem_map]
  constructor
  · rintro ⟨p, hp, hpk⟩
    exact ⟨p, hp, by simpa using hpk⟩
  · rintro ⟨p, hp, hpk⟩
    exact ⟨p, hp, by simpa using hpk⟩

theorem keysOf_mapUpdate {β : Type} (upd : β → β) (k : String)
    (l : List (String × β)) :
    keysOf (l.map fun p => if p.1 = k then (p.1, upd p.2) else p) = keysOf l := by
  unfold keysOf
  rw [List.map_map]
  refine List.map_congr_left fun p _ => ?_
  by_cases h : p.1 = k <;> simp [h]

theorem lookupD_mapUpdate {β : Type} (upd : β → β) (k k' : String) (d : β)
    (l : List (String × β)) :
    lookupD (l.map fun p => if p.1 = k then (p.1, upd p.2) else p) k' d =
      if k' = k ∧ k ∈ keysOf l then upd (lookupD l k d) else lookupD l k' d := by
  unfold lookupD
  rw [List.find?_map]
  have hpred : ((fun q : String × β => decide (q.1 = k')) ∘
      fun p => if p.1 = k then (p.1, upd p.2) else p) =
        fun p : String × β => decide (p.1 = k') := by
    funext p
    by_cases h : p.1 = k <;> simp [h]
  rw [hpred]
  by_cases hk' : k' = k
  · subst hk'
    rcases hfind : l.find? (fun p => decide (p.1 = k')) with _ | p
    · have hmem : ¬ k' ∈ keysOf l := by
        rw [← find?_key_isSome]
        simp [hfind]
      simp [hfind, hmem]
    · have hmem : k' ∈ keysOf l := by
        rw [← find?_key_isSome]
        simp [hfind]
      have hp : p.1 = k' := by simpa using List.find?_some hfind
      simp [hfind, hmem, hp]
  · rcases hfind : l.find? (fun p => decide (p.1 = k')) with _ | p
    · simp [hfind, hk']
    · have hp : p.1 = k' := by simpa using List.find?_some hfind
      simp [hfind, hk', hp]

theorem dictStep_none {β : Type} (upd : β → Txn → β) (dflt : β)
    (key : Txn → Option String) {t : Txn} (h : key t = none)
    (l : List (String × β)) : dictStep upd dflt key l t = l := by
  unfold dictStep
  rw [h]

theorem keysOf_dictStep {β : Type} (upd : β → Txn → β) (dflt : β)
    (key : Txn → Option String) {t : Txn} {k : String} (h : key t = some k)
    (l : List (String × β)) :
    keysOf (dictStep upd dflt key l t) =
      if k ∈ keysOf l then keysOf l else keysOf l ++ [k] := by
  unfold dictStep
  rw [h]
  dsimp only
  by_cases hmem : k ∈ keysOf l
  · rw [if_pos ((any_key_iff l k).mpr hmem), if_pos hmem]
    exact keysOf_mapUpdate (fun v => upd v t) k l
  · rw [if_neg fun ha => hmem ((any_key_iff l k).mp ha), if_neg hmem]
    unfold keysOf
    simp

theorem lookupD_dictStep {β : Type} (upd : β → Txn → β) (dflt : β)
    (key : Txn → Option String) {t : Txn} {k : String} (h : key t = some k)
    (l : List (String × β)) (k' : String) :
    lookupD (dictStep upd dflt key l t) k' dflt =
      if k' = k then upd (lookupD l k dflt) t else lookupD l k' dflt := by
  unfold dictStep
  rw [h]
  dsimp only
  by_cases hmem : k ∈ keysOf l
  · rw [if_pos ((any_key_iff l k).mpr hmem),
      lookupD_mapUpdate (fun v => upd v t) k k' dflt l]
    by_cases hk' : k' = k
    · rw [if_pos ⟨hk', hmem⟩, if_pos hk']
    · rw [if_neg fun hpair => hk' hpair.1, if_neg hk']
  · rw [if_neg fun ha => hmem ((any_key_iff l k).mp ha)]
    unfold lookupD
    rw [List.find?_append]
    by_cases hk' : k' = k
    · subst hk'
      have hfindk : l.find? (fun p => decide (p.1 = k')) = none := by
        rcases hf : l.find? fun p => decide (p.1 = k') with _ | p
        · exact hf
        · exact absurd ((find?_key_isSome l k').mp (by simp [hf])) hmem
      rw [hfindk]
      simp [List.find?, hfindk]
    · have hkk : ¬ k = k' := fun hke => hk' hke.symm
      have hsingle : (([(k, upd dflt t)] : List (String × β)).find? fun p =>
          decide (p.1 = k')) = none := by
        simp [List.find?, hkk]
      rw [hsingle, if_neg hk']
      simp

theorem dictFoldAux_keys {β : Type} (upd : β → Txn → β) (dflt : β)
    (key : Txn → Option String) :
    ∀ (txns : List Txn) (acc : List (String × β)),
      keysOf (txns.foldl (dictStep upd dflt key) acc) =
        (txns.filterMap key).foldl
          (fun a k => if k ∈ a then a else a ++ [k]) (keysOf acc)
  | [], acc => rfl
  | t :: rest, acc => by
    rw [List.foldl_cons]
    rcases hk : key t with _ | k
    · rw [dictStep_none upd dflt key hk acc,
        dictFoldAux_keys upd dflt key rest acc]
      simp [List.filterMap_cons, hk]
    · rw [dictFoldAux_keys upd dflt key rest _]
      simp only [List.filterMap_cons, hk, List.foldl_cons]
      rw [keysOf_dictStep upd dflt key hk acc]

theorem dictFoldAux_lookup {β : Type} (upd : β → Txn → β) (dflt : β)
    (key : Txn → Option String) :
    ∀ (txns : List Txn) (acc : List (String × β)) (k : String),
      lookupD (txns.foldl (dictStep upd dflt key) acc) k dflt =
        (txns.filter fun t => decide (key t = some k)).foldl upd
          (lookupD acc k dflt)
  | [], acc, k => rfl
  | t :: rest, acc, k => by
    rw [List.foldl_cons, dictFoldAux_lookup upd dflt key rest _ k]
    rcases hk : key t with _ | k0
    · rw [dictStep_none upd dflt key hk acc]
      have hfil : (decide (key t = some k)) = false := by simp [hk]
      simp [List.filter_cons, hfil]
    · rw [lookupD_dictStep upd dflt key hk acc k]
      by_cases hkk : k = k0
    

      · subst hkk
        have hfil : (decide (key t = some k)) = true := by simp [hk]
        rw [if_pos rfl]
        simp [List.filter_cons, hfil]
      · have hfil : (decide (key t = some k)) = false := by
          simp [hk]
          exact fun he => hkk he.symm
        rw [if_neg hkk]
        simp [List.filter_cons, hfil]

theorem firstSeenFrom_nodup :
    ∀ (ks acc : List String), acc.Nodup →
      (ks.foldl (fun a k => if k ∈ a then a else a ++ [k]) acc).Nodup
  | [], acc, h => h
  | k :: ks, acc, h => by
    rw [List.foldl_cons]
    by_cases hmem : k ∈ acc
    · rw [if_pos hmem]
      exact firstSeenFrom_nodup ks acc h
    · rw [if_neg hmem]
      refine firstSeenFrom_nodup ks _ ?_
      simp [List.nodup_append, h, hmem]

theorem assoc_reconstruct {β : Type} (d : β) :
    ∀ l : List (String × β), (keysOf l).Nodup →
      l = (keysOf l).map fun k => (k, lookupD l k d)
  | [], _ => rfl
  | a :: l, h => by
    have hkeys : keysOf (a :: l) = a.1 :: keysOf l := rfl
    rw [hkeys] at h ⊢
    rw [List.nodup_cons] at h
    rw [List.map_cons]
    have hhead : lookupD (a :: l) a.1 d = a.2 := by
      unfold lookupD
      rw [List.find?_cons_of_pos _ (by simp)]
      rfl
    rw [hhead]
    have htail : ∀ k ∈ keysOf l, lookupD (a :: l) k d = lookupD l k d := by
      intro k hkmem
      unfold lookupD
      rw [List.find?_cons_of_neg _ (by simp; exact fun he => h.1 (he ▸ hkmem))]
    have hmap : (keysOf l).map (fun k => (k, lookupD (a :: l) k d)) =
        (keysOf l).map (fun k => (k, lookupD l k d)) :=
      List.map_congr_left fun k hkmem => by rw [htail k hkmem]
    rw [hmap, ← assoc_reconstruct d l h.2]

theorem dictFold_eq {β : Type} (upd : β → Txn → β) (dflt : β)
    (key : Txn → Option String) (txns : List Txn) :
    dictFold upd dflt key txns = (firstSeen (txns.filterMap key)).map fun k =>
      (k, (txns.filter fun t => decide (key t = some k)).foldl upd dflt) := by
  have hkeys : keysOf (dictFold upd dflt key txns) =
      firstSeen (txns.filterMap key) :=
    dictFoldAux_keys upd dflt key txns []
  have hnodup : (keysOf (dictFold upd dflt key txns)).Nodup := by
    rw [hkeys]
    exact firstSeenFrom_nodup _ [] List.nodup_nil
  calc dictFold upd dflt key txns
      = (keysOf (dictFold upd dflt key txns)).map
          (fun k => (k, lookupD (dictFold upd dflt key txns) k dflt)) :=
        assoc_reconstruct dflt _ hnodup
    _ = (firstSeen (txns.filterMap key)).map fun k =>
          (k, (txns.filter fun t => decide (key t = some k)).foldl upd dflt) := by
        rw [hkeys]
        refine List.map_congr_left fun k _ => ?_
        unfold dictFold
        rw [dictFoldAux_lookup upd dflt key txns [] k]
        rfl

/-! ## Claim C5: summarize -/

theorem foldl_add_map (f : Txn → ℚ) :
    ∀ (l : List Txn) (a : ℚ), l.foldl (fun v t => v + f t) a = a + (l.map f).sum
  | [], a => by simp
  | t :: rest, a => by
    rw [List.foldl_cons, foldl_add_map f rest _]
    simp [add_assoc]

theorem summarizeFold_fst :
    ∀ (txns : List Txn) (st : ℚ × ℚ × List (String × ℚ)),
      (txns.foldl summarizeStep st).1 = st.1 + sumIncome txns
  | [], st => by simp [sumIncome]
  | t :: rest, st => by
    rw [List.foldl_cons, summarizeFold_fst rest _]
    unfold summarizeStep sumIncome
    by_cases h : 0 < t.amount
    · simp [List.filter_cons, h]
      ring
    · simp [List.filter_cons, h]

theorem summarizeFold_exp :
    ∀ (txns : List Txn) (st : ℚ × ℚ × List (String × ℚ)),
      (txns.foldl summarizeStep st).2.1 = st.2.1 + sumExpense txns
  | [], st => by simp [sumExpense]
  | t :: rest, st => by
    rw [List.foldl_cons, summarizeFold_exp rest _]
    unfold summarizeStep sumExpense
    by_cases h : 0 < t.amount
    · have h' : ¬ t.amount ≤ 0 := not_le.mpr h
      simp [List.filter_cons, h, h']
    · have h' : t.amount ≤ 0 := not_lt.mp h
      simp [List.filter_cons, h, h']
      ring

theorem summarizeFold_cats :
    ∀ (txns : List Txn) (st : ℚ × ℚ × List (String × ℚ)),
      (txns.foldl summarizeStep st).2.2 =
        txns.foldl
          (dictStep (fun v s => v + |s.amount|) 0 fun s => some (catKey s)) st.2.2
  | [], _ => rfl
  | t :: rest, st => by
    rw [List.foldl_cons, summarizeFold_cats rest _, List.foldl_cons]
    rfl

theorem catsDict_eq (txns : List Txn) :
    dictFold (fun v s => v + |s.amount|) 0 (fun s => some (catKey s)) txns =
      (firstSeen (txns.map catKey)).map fun k =>
        (k, ((txns.filter fun t => decide (catKey t = k)).map
          fun t => |t.amount|).sum) := by
  rw [dictFold_eq]
  have h1 : txns.filterMap (fun s => some (catKey s)) = txns.map catKey :=
    List.filterMap_eq_map catKey ▸ rfl
  rw [h1]
  refine List.map_congr_left fun k _ => ?_
  have h2 : (txns.filter fun t => decide (some (catKey t) = some k)) =
      txns.filter fun t => decide (catKey t = k) := by
    refine List.filter_congr fun a _ => ?_
    simp
  rw [h2, foldl_add_map _ _ 0, zero_add]

/-- C5 amended: the summary consists of the quantized sum of positive
amounts, the quantized sum of absolute non-positive amounts, the quantized
difference of the two unquantized sums, and the first-seen-ordered
category totals where "Uncategorized" is substituted when the category is
absent or empty. -/
theorem summarize_transactions_characterization :
    ∀ txns : List Txn, summarize_transactions txns = summarizeSpecAmended txns := by
  intro txns
  unfold summarize_transactions summarizeSpecAmended summarizeSpecWith
  dsimp only
  rw [summarizeFold_fst txns _, summarizeFold_exp txns _, summarizeFold_cats txns _]
  have hc : txns.foldl
      (dictStep (fun v s => v + |s.amount|) 0 fun s => some (catKey s))
      ((0 : ℚ), (0 : ℚ), ([] : List (String × ℚ))).2.2 =
      dictFold (fun v s => v + |s.amount|) 0 (fun s => some (catKey s)) txns := rfl
  rw [hc, catsDict_eq, List.map_map]
  simp only [zero_add]
  rfl

/-- C5 counterexample: a transaction whose category is present but empty is
bucketed under "Uncategorized" by the code (Python falsiness), not under
its own empty-string key as the claim's "absent" wording implies. -/
theorem summarize_claim_counterexample :
    summarize_transactions [⟨0, none, 5, some ""⟩] ≠
      summarizeSpec [⟨0, none, 5, some ""⟩] := by
  rw [summarize_transactions_characterization]
  intro h
  have hk := congrArg (fun s => s.category_totals.map Prod.fst) h
  have hL : (summarizeSpecAmended [⟨0, none, 5, some ""⟩]).category_totals.map
      Prod.fst = ["Uncategorized"] := by
    simp [summarizeSpecAmended, summarizeSpecWith, firstSeen, catKey]
  have hR : (summarizeSpec [⟨0, none, 5, some ""⟩]).category_totals.map
      Prod.fst = [""] := by
    simp [summarizeSpec, summarizeSpecWith, firstSeen]
  dsimp only at hk
  rw [hL, hR] at hk
  exact absurd hk (by decide)

/-! ## Claim C6: the net-cash-flow identity -/

theorem isCents_sum : ∀ l : List ℚ, (∀ x ∈ l, IsCents x) → IsCents l.sum
  | [], _ => by
    rw [List.sum_nil]
    exact isCents_zero
  | x :: rest, h => by
    rw [List.sum_cons]
    exact (h x (List.mem_cons_self x rest)).add
      (isCents_sum rest fun y hy => h y (List.mem_cons_of_mem x hy))

theorem IsCents.abs {a : ℚ} (ha : IsCents a) : IsCents |a| := by
  rcases abs_cases a with ⟨h, _⟩ | ⟨h, _⟩ <;> rw [h]
  · exact ha
  · exact ha.neg

theorem sumIncome_isCents {txns : List Txn} (h : ∀ t ∈ txns, IsCents t.amount) :
    IsCents (sumIncome txns) := by
  refine isCents_sum _ fun x hx => ?_
  rcases List.mem_map.mp hx with ⟨t, ht, rfl⟩
  exact h t (List.mem_of_mem_filter ht)

theorem sumExpense_isCents {txns : List Txn} (h : ∀ t ∈ txns, IsCents t.amount) :
    IsCents (sumExpense txns) := by
  refine isCents_sum _ fun x hx => ?_
  rcases List.mem_map.mp hx with ⟨t, ht, rfl⟩
  exact (h t (List.mem_of_mem_filter ht)).abs

/-- C6 amended: whenever every amount is a whole number of cents (as all
really monetary inputs are), the reported net cash flow equals the
reported income minus the reported expense exactly; the identity can fail
only for sub-cent amounts. -/
theorem net_cash_flow_identity_cents :
    ∀ txns : List Txn, (∀ t ∈ txns, IsCents t.amount) →
      quantize_cents (sumIncome txns - sumExpense txns) =
        quantize_cents (sumIncome txns) - quantize_cents (sumExpense txns)
      ∧ (summarize_transactions txns).net_cash_flow =
          decimalString2 (quantize_cents (sumIncome txns) -
            quantize_cents (sumExpense txns)) := by
  intro txns h
  have hI := sumIncome_isCents h
  have hE := sumExpense_isCents h
  have hid : quantize_cents (sumIncome txns - sumExpense txns) =
      quantize_cents (sumIncome txns) - quantize_cents (sumExpense txns) := by
    rw [quantize_cents_eq_self (hI.sub hE), quantize_cents_eq_self hI,
      quantize_cents_eq_self hE]
  refine ⟨hid, ?_⟩
  rw [summarize_transactions_characterization]
  unfold summarizeSpecAmended summarizeSpecWith
  dsimp only
  rw [hid]

/-- Witness for C6 at a concrete input with cent amounts 5.00 and -2.00. -/
theorem net_cash_flow_identity_cents_witness :
    (∀ t ∈ ([⟨0, none, 5, none⟩, ⟨1, none, -2, none⟩] : List Txn),
        IsCents t.amount)
    ∧ quantize_cents
        (sumIncome [⟨0, none, 5, none⟩, ⟨1, none, -2, none⟩] -
          sumExpense [⟨0, none, 5, none⟩, ⟨1, none, -2, none⟩]) =
      quantize_cents (sumIncome [⟨0, none, 5, none⟩, ⟨1, none, -2, none⟩]) -
        quantize_cents (sumExpense [⟨0, none, 5, none⟩, ⟨1, none, -2, none⟩]) := by
  have hc : ∀ t ∈ ([⟨0, none, 5, none⟩, ⟨1, none, -2, none⟩] : List Txn),
      IsCents t.amount := by
    intro t ht
    rcases List.mem_cons.mp ht with rfl | ht'
    · exact ⟨500, by norm_num⟩
    · rcases List.mem_cons.mp ht' with rfl | ht''
      · exact ⟨-200, by norm_num⟩
      · exact absurd ht'' (List.not_mem_nil t)
  exact ⟨hc, (net_cash_flow_identity_cents _ hc).1⟩

/-- C6 counterexample: with sub-cent amounts 0.004 and -0.005 the reported
net cash flow is "0.00" while income minus expense as reported is
0.00 - 0.01 = -0.01. -/
theorem net_cash_flow_identity_counterexample :
    (summarize_transactions
        [⟨0, none, 1 / 250, none⟩, ⟨0, none, -(1 / 200), none⟩]).net_cash_flow ≠
      decimalString2
        (quantize_cents (sumIncome [⟨0, none, 1 / 250, none⟩, ⟨0, none, -(1 / 200), none⟩]) -
          quantize_cents (sumExpense [⟨0, none, 1 / 250, none⟩, ⟨0, none, -(1 / 200), none⟩])) := by
  have d1 : (decide ((0 : ℚ) < 1 / 250)) = true := by
    rw [decide_eq_true_eq]
    norm_num
  have d2 : (decide ((0 : ℚ) < -(1 / 200))) = false := by
    rw [decide_eq_false_iff_not]
    norm_num
  have d3 : (decide ((1 / 250 : ℚ) ≤ 0)) = false := by
    rw [decide_eq_false_iff_not]
    norm_num
  have d4 : (decide ((-(1 / 200) : ℚ) ≤ 0)) = true := by
    rw [decide_eq_true_eq]
    norm_num
  have hI : sumIncome [⟨0, none, 1 / 250, none⟩, ⟨0, none, -(1 / 200), none⟩] =
      1 / 250 := by
    simp [sumIncome, List.filter_cons, d1, d2]
  have hE : sumExpense [⟨0, none, 1 / 250, none⟩, ⟨0, none, -(1 / 200), none⟩] =
      1 / 200 := by
    simp [sumExpense, List.filter_cons, d3, d4]
  rw [summarize_transactions_characterization]
  unfold summarizeSpecAmended summarizeSpecWith
  dsimp only
  rw [hI, hE]
  have q1 : quantize_cents (1 / 250 - 1 / 200 : ℚ) = 0 := by
    norm_num [quantize_cents]
  have q2 : quantize_cents (1 / 250 : ℚ) = 0 := by
    norm_num [quantize_cents]
  have q3 : quantize_cents (1 / 200 : ℚ) = 1 / 100 := by
    norm_num [quantize_cents]
  rw [q1, q2, q3]
  have hz : decimalString2 0 = intCentsRepr 0 := by
    unfold decimalString2
    norm_num
  have hm : decimalString2 (0 - 1 / 100) = intCentsRepr (-1) := by
    unfold decimalString2
    rw [show ((0 : ℚ) - 1 / 100) * 100 = ((-1 : ℤ) : ℚ) by norm_num,
      Int.floor_intCast]
  rw [hz, hm]
  decide

/-! ## `backend/analytics.py`: detect_recurring -/

/-- Sort order used by `txns.sort(key=lambda t: t.date)`. -/
def dateLE (s t : Txn) : Prop := s.date ≤ t.date

instance : DecidableRel dateLE := fun s t => by
  unfold dateLE
  infer_instance

instance : IsTotal Txn dateLE := ⟨fun s t => le_total s.date t.date⟩

instance : IsTrans Txn dateLE := ⟨fun _ _ _ h1 h2 => le_trans h1 h2⟩

/-- Consecutive day differences of a transaction list, as the loop
`for i in range(1, len(txns))` computes them. -/
def dayDeltas : List Txn → List ℤ
  | a :: b :: rest => (b.date - a.date) :: dayDeltas (b :: rest)
  | _ => []

theorem dayDeltas_length : ∀ l : List Txn, (dayDeltas l).length = l.length - 1
  | [] => rfl
  | [_] => rfl
  | a :: b :: rest => by
    have ih := dayDeltas_length (b :: rest)
    simp only [dayDeltas, List.length_cons] at *
    omega

/-- Embeds the body of the per-merchant loop in `detect_recurring`: skip
groups smaller than 2, sort by date, take consecutive day deltas, sort
them, test whether the element at index `len // 2` lies in `[27, 33]`, and
if so report the merchant with the quantized mean absolute amount. -/
def groupRecurring (merchant : String) (g : List Txn) : Option (String × ℚ) :=
  if g.length < 2 then none
  else if dayDeltas (g.insertionSort dateLE) = [] then none
  else if 27 ≤ ((dayDeltas (g.insertionSort dateLE)).insertionSort
          fun a b => a ≤ b).getD ((dayDeltas (g.insertionSort dateLE)).length / 2) 0
      ∧ ((dayDeltas (g.insertionSort dateLE)).insertionSort
          fun a b => a ≤ b).getD ((dayDeltas (g.insertionSort dateLE)).length / 2) 0
        ≤ 33 then
    some (merchant, quantize_cents
      (((g.insertionSort dateLE).map fun t => |t.amount|).sum /
        ((g.insertionSort dateLE).length : ℚ)))
  else none

/-- Embeds `detect_recurring` of analytics.py: group the transactions with
truthy merchants in first-seen order, then walk the groups appending the
recurring ones. -/
def detect_recurring (txns : List Txn) : List (String × ℚ) :=
  (dictFold (fun g t => g ++ [t]) [] merchOf txns).foldl
    (fun acc p =>
      match groupRecurring p.1 p.2 with
      | some r => acc ++ [r]
      | none => acc) []

/-- The group of transactions carrying (truthy) merchant `m`. -/
def groupFor (txns : List Txn) (m : String) : List Txn :=
  txns.filter fun t => decide (merchOf t = some m)

/-- The spec's median selection: element at index `floor(n/2)` of the
sorted delta list of the date-sorted group. -/
def groupMedian (g : List Txn) : ℤ :=
  ((dayDeltas (g.insertionSort dateLE)).insertionSort fun a b => a ≤ b).getD
    ((dayDeltas (g.insertionSort dateLE)).length / 2) 0

/-- The spec's reported amount: mean of the absolute amounts of the group. -/
def meanAbsAmount (g : List Txn) : ℚ :=
  (g.map fun t => |t.amount|).sum / (g.length : ℚ)

/-- The recurring-merchant report as the spec words it. -/
def detectRecurringSpec (txns : List Txn) : List (String × ℚ) :=
  (firstSeen (txns.filterMap merchOf)).filterMap fun m =>
    if 2 ≤ (groupFor txns m).length ∧ 27 ≤ groupMedian (groupFor txns m) ∧
        groupMedian (groupFor txns m) ≤ 33 then
      some (m, quantize_cents (meanAbsAmount (groupFor txns m)))
    else none

theorem foldl_append_singleton {α : Type} :
    ∀ (l acc : List α), l.foldl (fun v t => v ++ [t]) acc = acc ++ l
  | [], acc => by simp
  | t :: rest, acc => by
    rw [List.foldl_cons, foldl_append_singleton rest _]
    simp

theorem foldl_groupMatch :
    ∀ (l : List (String × List Txn)) (acc : List (String × ℚ)),
      l.foldl (fun acc p =>
        match groupRecurring p.1 p.2 with
        | some r => acc ++ [r]
        | none => acc) acc = acc ++ l.filterMap fun p => groupRecurring p.1 p.2
  | [], acc => by simp
  | a :: rest, acc => by
    rw [List.foldl_cons, foldl_groupMatch rest _]
    rcases hf : groupRecurring a.1 a.2 with _ | r <;>
      simp [List.filterMap_cons, hf]

theorem groups_eq (txns : List Txn) :
    dictFold (fun g t => g ++ [t]) [] merchOf txns =
      (firstSeen (txns.filterMap merchOf)).map fun m => (m, groupFor txns m) := by
  rw [dictFold_eq]
  refine List.map_congr_left fun m _ => ?_
  rw [foldl_append_singleton]
  rfl

theorem groupRecurring_eq_spec (m : String) (g : List Txn) :
    groupRecurring m g =
      if 2 ≤ g.length ∧ 27 ≤ groupMedian g ∧ groupMedian g ≤ 33 then
        some (m, quantize_cents (meanAbsAmount g))
      else none := by
  unfold groupRecurring
  by_cases hlen : g.length < 2
  · rw [if_pos hlen, if_neg fun hc => absurd hc.1 (not_le.mpr hlen)]
  · have hlen2 : 2 ≤ g.length := not_lt.mp hlen
    have hsortlen : (g.insertionSort dateLE).length = g.length :=
      (List.perm_insertionSort dateLE g).length_eq
    have hne : ¬ dayDeltas (g.insertionSort dateLE) = [] := by
      intro h0
      have := dayDeltas_length (g.insertionSort dateLE)
      rw [h0, hsortlen] at this
      simp at this
      omega
    rw [if_neg hlen, if_neg hne]
    have hmean : ((g.insertionSort dateLE).map fun t => |t.amount|).sum =
        (g.map fun t => |t.amount|).sum :=
      ((List.perm_insertionSort dateLE g).map _).sum_eq
    have hgm : ((dayDeltas (g.insertionSort dateLE)).insertionSort
        fun a b => a ≤ b).getD ((dayDeltas (g.insertionSort dateLE)).length / 2) 0 =
          groupMedian g := rfl
    rw [hgm]
    by_cases hmed : 27 ≤ groupMedian g ∧ groupMedian g ≤ 33
    · rw [if_pos hmed, if_pos ⟨hlen2, hmed⟩]
      unfold meanAbsAmount
      rw [hmean, hsortlen]
    · rw [if_neg hmed, if_neg fun hc => hmed hc.2]

/-- C4: `detect_recurring` reports exactly the merchants whose (truthy)
merchant group has at least two members and whose sorted consecutive
day-delta list has its element at index `floor(n/2)` in `[27, 33]`,
reporting the quantized mean absolute amount over the whole group, in
first-seen merchant order; the date sort is a permutation sorted
ascending; and a merchant with a single transaction is never reported. -/
theorem detect_recurring_characterization :
    ∀ txns : List Txn,
      detect_recurring txns = detectRecurringSpec txns
      ∧ (∀ g : List Txn, (g.insertionSort dateLE).Perm g
          ∧ List.Sorted dateLE (g.insertionSort dateLE))
      ∧ (∀ (m : String) (a : ℚ), (m, a) ∈ detect_recurring txns →
          2 ≤ (groupFor txns m).length) := by
  intro txns
  have heq : detect_recurring txns = detectRecurringSpec txns := by
    unfold detect_recurring detectRecurringSpec
    rw [groups_eq, foldl_groupMatch, List.nil_append, List.filterMap_map]
    have hfun : ((fun p : String × List Txn => groupRecurring p.1 p.2) ∘
        fun m => (m, groupFor txns m)) = fun m =>
          if 2 ≤ (groupFor txns m).length ∧ 27 ≤ groupMedian (groupFor txns m) ∧
              groupMedian (groupFor txns m) ≤ 33 then
            some (m, quantize_cents (meanAbsAmount (groupFor txns m)))
          else none := by
      funext m
      exact groupRecurring_eq_spec m (groupFor txns m)
    rw [hfun]
  refine ⟨heq, fun g => ⟨List.perm_insertionSort dateLE g,
    List.sorted_insertionSort dateLE g⟩, ?_⟩
  intro m a hmem
  rw [heq] at hmem
  unfold detectRecurringSpec at hmem
  rcases List.mem_filterMap.mp hmem with ⟨m', _, hm'⟩
  by_cases hc : 2 ≤ (groupFor txns m').length ∧
      27 ≤ groupMedian (groupFor txns m') ∧ groupMedian (groupFor txns m') ≤ 33
  · rw [if_pos hc] at hm'
    have hpair := Option.some.inj hm'
    have hmm : m' = m := congrArg Prod.fst hpair
    rw [← hmm]
    exact hc.1
  · rw [if_neg hc] at hm'
    exact absurd hm' (by simp)

/-! ## Claim C7: representation of monetary values at the boundary -/

/-- A Python value holding money at the core's boundary: either a decimal
string (`str(Decimal)`) or a bare `Decimal` object. -/
inductive MoneyVal : Type
  | strVal (s : String)
  | decVal (q : ℚ)
deriving DecidableEq

/-- Whether a boundary money value is a string. -/
def MoneyVal.isStr : MoneyVal → Bool
  | strVal _ => true
  | decVal _ => false

/-- The monetary values in a summary, with the representation the code
gives them: all four kinds of totals are `str(...)` results. -/
def summaryMoneyVals (s : Summary) : List MoneyVal :=
  MoneyVal.strVal s.total_income :: MoneyVal.strVal s.total_expense ::
    MoneyVal.strVal s.net_cash_flow ::
      s.category_totals.map fun p => MoneyVal.strVal p.2

/-- The monetary values in a payoff result, with the representation the
code gives them: every snapshot balance is a `str(...)` result. -/
def payoffMoneyVals (r : PayoffResult) : List MoneyVal :=
  (r.schedule.map fun snap =>
    snap.debts.map fun e => MoneyVal.strVal e.balance).flatten

/-- The monetary values returned by `detect_recurring`, with the
representation the code gives them: bare `Decimal` objects, not strings. -/
def detectMoneyVals (rs : List (String × ℚ)) : List MoneyVal :=
  rs.map fun p => MoneyVal.decVal p.2

/-- C7 amended: the totals of `summarize_transactions` and the snapshot
balances of `payoff_plan` cross the boundary as decimal strings, but the
average amounts returned by `detect_recurring` cross it as bare exact
decimals (Decimal objects), not strings. -/
theorem boundary_money_representation :
    ∀ (txns : List Txn) (debts : List Debt) (extra : ℚ) (method : String),
      ((summaryMoneyVals (summarize_transactions txns)).all MoneyVal.isStr) = true
      ∧ ((payoffMoneyVals (payoff_plan debts extra method)).all MoneyVal.isStr) = true
      ∧ ((detectMoneyVals (detect_recurring txns)).all
          fun v => !v.isStr) = true := by
  intro txns debts extra method
  refine ⟨?_, ?_, ?_⟩
  · rw [List.all_eq_true]
    intro v hv
    unfold summaryMoneyVals at hv
    rcases List.mem_cons.mp hv with rfl | hv
    · rfl
    rcases List.mem_cons.mp hv with rfl | hv
    · rfl
    rcases List.mem_cons.mp hv with rfl | hv
    · rfl
    rcases List.mem_map.mp hv with ⟨p, _, rfl⟩
    rfl
  · rw [List.all_eq_true]
    intro v hv
    unfold payoffMoneyVals at hv
    rcases List.mem_flatten.mp hv with ⟨inner, hin, hv'⟩
    rcases List.mem_map.mp hin with ⟨snap, _, rfl⟩
    rcases List.mem_map.mp hv' with ⟨e, _, rfl⟩
    rfl
  · rw [List.all_eq_true]
    intro v hv
    unfold detectMoneyVals at hv
    rcases List.mem_map.mp hv with ⟨p, _, rfl⟩
    rfl

/-- C7 counterexample: a concrete monthly-recurring merchant makes
`detect_recurring` return a non-string (Decimal) monetary value at the
boundary. -/
theorem boundary_money_representation_counterexample :
    ((detectMoneyVals (detect_recurring
        [⟨0, some "Gym", -10, none⟩, ⟨30, some "Gym", -10, none⟩])).all
      MoneyVal.isStr) = false := by
  have h1 := (detect_recurring_characterization
    [⟨0, some "Gym", -10, none⟩, ⟨30, some "Gym", -10, none⟩]).1
  have h2 : firstSeen (([⟨0, some "Gym", -10, none⟩,
      ⟨30, some "Gym", -10, none⟩] : List Txn).filterMap merchOf) = ["Gym"] := by
    simp [merchOf, firstSeen]
  have h3 : groupFor [⟨0, some "Gym", -10, none⟩, ⟨30, some "Gym", -10, none⟩]
      "Gym" = [⟨0, some "Gym", -10, none⟩, ⟨30, some "Gym", -10, none⟩] := by
    simp [groupFor, merchOf]
  have hmed : groupMedian [⟨0, some "Gym", -10, none⟩,
      ⟨30, some "Gym", -10, none⟩] = 30 := by decide
  have h5 : detectRecurringSpec [⟨0, some "Gym", -10, none⟩,
      ⟨30, some "Gym", -10, none⟩] = [("Gym", quantize_cents (meanAbsAmount
        [⟨0, some "Gym", -10, none⟩, ⟨30, some "Gym", -10, none⟩]))] := by
    unfold detectRecurringSpec
    rw [h2]
    simp [h3, hmed]
  rw [h1, h5]
  rfl

/-! ## `backend/normalizer.py` -/

/-- A calendar date as `datetime.strptime` produces it (time fields are
always midnight for the three supported formats). -/
structure DateVal where
  year : ℕ
  month : ℕ
  day : ℕ
deriving DecidableEq

/-- Gregorian leap-year rule, as `datetime` validates days. -/
def isLeap (y : ℕ) : Bool :=
  y % 4 = 0 && (y % 100 != 0 || y % 400 = 0)

/-- Number of days in a month, as `datetime` validates days. -/
def daysInMonth (y m : ℕ) : ℕ :=
  if m = 2 then (if isLeap y then 29 else 28)
  else if m = 4 ∨ m = 6 ∨ m = 9 ∨ m = 11 then 30 else 31

/-- Splitting a character list at a separator, as `str.split(sep)` would
split the corresponding string. -/
def splitOnChar (c : Char) : List Char → List (List Char)
  | [] => [[]]
  | x :: xs =>
    if x = c then [] :: splitOnChar c xs
    else
      match splitOnChar c xs with
      | [] => [[x]]
      | h :: t => (x :: h) :: t

/-- Numeric value of an all-digit character list, or nothing. -/
def digitsToNat : List Char → Option ℕ
  | l =>
    if l ≠ [] ∧ l.all Char.isDigit then
      some (l.foldl (fun n c => 10 * n + (c.toNat - 48)) 0)
    else none

/-- The strptime directive `%Y`: exactly four digits. -/
def parseYear4 (l : List Char) : Option ℕ :=
  if l.length = 4 then digitsToNat l else none

/-- The strptime directive `%m`: one or two digits, value 1..12. -/
def parseMonth2 (l : List Char) : Option ℕ :=
  if l.length = 1 ∨ l.length = 2 then
    match digitsToNat l with
    | some n => if 1 ≤ n ∧ n ≤ 12 then some n else none
    | none => none
  else none

/-- The strptime directive `%d`: one or two digits, value 1..31 (calendar
validity is checked by the `datetime` constructor afterwards). -/
def parseDay2 (l : List Char) : Option ℕ :=
  if l.length = 1 ∨ l.length = 2 then
    match digitsToNat l with
    | some n => if 1 ≤ n ∧ n ≤ 31 then some n else none
    | none => none
  else none

/-- The `datetime(year, month, day)` constructor's validation. -/
def mkDate (y m d : ℕ) : Option DateVal :=
  if 1 ≤ y ∧ d ≤ daysInMonth y m then some ⟨y, m, d⟩ else none

/-- Matching a string against `"%Y-%m-%d"`. -/
def matchISO (s : String) : Option DateVal :=
  match splitOnChar '-' s.toList with
  | [ys, ms, ds] =>
    match parseYear4 ys, parseMonth2 ms, parseDay2 ds with
    | some y, some m, some d => mkDate y m d
    | _, _, _ => none
  | _ => none

/-- Matching a string against `"%m/%d/%Y"`. -/
def matchMDY (s : String) : Option DateVal :=
  match splitOnChar '/' s.toList with
  | [ms, ds, ys] =>
    match parseYear4 ys, parseMonth2 ms, parseDay2 ds with
    | some y, some m, some d => mkDate y m d
    | _, _, _ => none
  | _ => none

/-- Matching a string against `"%d/%m/%Y"`. -/
def matchDMY (s : String) : Option DateVal :=
  match splitOnChar '/' s.toList with
  | [ds, ms, ys] =>
    match parseYear4 ys, parseMonth2 ms, parseDay2 ds with
    | some y, some m, some d => mkDate y m d
    | _, _, _ => none
  | _ => none

/-- Embeds `_parse_date` of normalizer.py: try the three formats in fixed
order, first success wins, else raise `ValueError` naming the raw value. -/
def parse_date (s : String) : Except String DateVal :=
  match matchISO s with
  | some d => .ok d
  | none =>
    match matchMDY s with
    | some d => .ok d
    | none =>
      match matchDMY s with
      | some d => .ok d
      | none => .error ("Unable to parse date: " ++ s)

/-- The raw transaction record given to `normalize_transaction`: the keys
the function reads, each possibly absent. -/
structure RawRecord where
  date : Option String
  timestamp : Option String
  datetime : Option String
  merchant : Option String
  payee : Option String
  amount : Option ℚ
  currency : Option String
  category : Option String
  description : Option String
  account : Option String
deriving DecidableEq

/-- Python truthiness of an optional string (`None` and `""` are falsy). -/
def pyTruthy : Option String → Bool
  | none => false
  | some s => s ≠ ""

/-- Embeds `raw.get("date") or raw.get("timestamp") or raw.get("datetime")`
followed by the truthiness test `if date_raw`. -/
def dateRaw (raw : RawRecord) : Option String :=
  if pyTruthy raw.date then raw.date
  else if pyTruthy raw.timestamp then raw.timestamp
  else if pyTruthy raw.datetime then raw.datetime
  else none

/-- Stripping leading and trailing whitespace, as `str.strip()` does. -/
def trimChars (l : List Char) : List Char :=
  ((l.dropWhile Char.isWhitespace).reverse.dropWhile Char.isWhitespace).reverse

/-- Embeds the merchant resolution of `normalize_transaction`: merchant
field, else payee field, else first whitespace-delimited token of the
stripped description, else the sentinel "Unknown". -/
def merchantOf (raw : RawRecord) : String :=
  if pyTruthy raw.merchant then raw.merchant.getD ""
  else if pyTruthy raw.payee then raw.payee.getD ""
  else
    let desc := trimChars (raw.description.getD "").toList
    if desc = [] then "Unknown"
    else ⟨desc.takeWhile fun c => !c.isWhitespace⟩

/-- The canonical transaction dictionary `normalize_transaction` returns.
Its docstring declares `date` to be a datetime, but the code stores `None`
there when no date-bearing field is present. -/
structure NormTxn where
  date : Option DateVal
  merchant : String
  amount : ℚ
  currency : String
  category : Option String
  description : String
  account : Option String
deriving DecidableEq

/-- The non-date fields of the normalized record. -/
def canonicalOf (raw : RawRecord) (d : Option DateVal) : NormTxn :=
  { date := d,
    merchant := merchantOf raw,
    amount := raw.amount.getD 0,
    currency := ⟨(raw.currency.getD "USD").toList.map Char.toUpper⟩,
    category := raw.category,
    description := raw.description.getD "",
    account := raw.account }

/-- Embeds `normalize_transaction` of normalizer.py.  A raised
`ValueError` from date parsing is the error case. -/
def normalize_transaction (raw : RawRecord) : Except String NormTxn :=
  match dateRaw raw with
  | some s =>
    match parse_date s with
    | .ok d => .ok (canonicalOf raw (some d))
    | .error e => .error e
  | none => .ok (canonicalOf raw none)

/-! ## Claims C3 and C9 -/

/-- C3: contrary to the claim (and to the spec's stated invariant), when
none of the date-bearing fields is present `normalize_transaction` raises
nothing; it returns a canonical transaction whose date is `None`. -/
theorem normalize_missing_date_no_error :
    ∀ raw : RawRecord, dateRaw raw = none →
      normalize_transaction raw = .ok (canonicalOf raw none)
      ∧ (canonicalOf raw none).date = none := by
  intro raw h
  unfold normalize_transaction
  rw [h]
  exact ⟨rfl, rfl⟩

/-- Witness for C3: a concrete record with merchant and amount but no
date-bearing field normalizes successfully, with an absent date. -/
theorem normalize_missing_date_no_error_witness :
    dateRaw ⟨none, none, none, some "Store", none, some 5, none, none, none,
        none⟩ = none
    ∧ normalize_transaction ⟨none, none, none, some "Store", none, some 5,
        none, none, none, none⟩ =
      .ok (canonicalOf ⟨none, none, none, some "Store", none, some 5, none,
        none, none, none⟩ none) :=
  ⟨rfl, (normalize_missing_date_no_error ⟨none, none, none, some "Store",
    none, some 5, none, none, none, none⟩ rfl).1⟩

/-- C9: the date parser tries the formats in the fixed order ISO
`YYYY-MM-DD`, then `MM/DD/YYYY`, then `DD/MM/YYYY`, and the first
successful match wins — so "03/04/2025" parses as month 3, day 4 — and
when no format matches, it fails with an error naming the raw value. -/
theorem parse_date_priority :
    ∀ s : String,
      (∀ d, matchISO s = some d → parse_date s = .ok d)
      ∧ (matchISO s = none → ∀ d, matchMDY s = some d → parse_date s = .ok d)
      ∧ (matchISO s = none → matchMDY s = none → ∀ d, matchDMY s = some d →
          parse_date s = .ok d)
      ∧ (matchISO s = none → matchMDY s = none → matchDMY s = none →
          parse_date s = .error ("Unable to parse date: " ++ s))
      ∧ parse_date "03/04/2025" = .ok ⟨2025, 3, 4⟩ := by
  intro s
  refine ⟨?_, ?_, ?_, ?_, ?_⟩
  · intro d h
    unfold parse_date
    rw [h]
  · intro h1 d h2
    unfold parse_date
    rw [h1, h2]
  · intro h1 h2 d h3
    unfold parse_date
    rw [h1, h2, h3]
  · intro h1 h2 h3
    unfold parse_date
    rw [h1, h2, h3]
  · rfl

/-- Witness for C9 at concrete inputs: an ISO date takes the first format,
the US format wins over the international one for "03/04/2025", and a
nonsense string fails with the naming error. -/
theorem parse_date_priority_witness :
    matchISO "2025-03-14" = some ⟨2025, 3, 14⟩
    ∧ parse_date "2025-03-14" = .ok ⟨2025, 3, 14⟩
    ∧ matchISO "31/12/2024" = none
    ∧ matchMDY "31/12/2024" = none
    ∧ matchDMY "31/12/2024" = some ⟨2024, 12, 31⟩
    ∧ parse_date "31/12/2024" = .ok ⟨2024, 12, 31⟩
    ∧ matchISO "nonsense" = none
    ∧ matchMDY "nonsense" = none
    ∧ matchDMY "nonsense" = none
    ∧ parse_date "nonsense" = .error ("Unable to parse date: " ++ "nonsense") :=
  ⟨by decide,
    (parse_date_priority "2025-03-14").1 ⟨2025, 3, 14⟩ (by decide),
    by decide, by decide, by decide,
    (parse_date_priority "31/12/2024").2.2.1 (by decide) (by decide)
      ⟨2024, 12, 31⟩ (by decide),
    by decide, by decide, by decide,
    (parse_date_priority "nonsense").2.2.2.1 (by decide) (by decide)
      (by decide)⟩

/-- Witness for C4 at a concrete two-transaction recurring merchant. -/
theorem detect_recurring_characterization_witness :
    detect_recurring [⟨0, some "Gym", -10, none⟩, ⟨30, some "Gym", -10, none⟩] =
      detectRecurringSpec
        [⟨0, some "Gym", -10, none⟩, ⟨30, some "Gym", -10, none⟩] :=
  (detect_recurring_characterization
    [⟨0, some "Gym", -10, none⟩, ⟨30, some "Gym", -10, none⟩]).1
